import Mathlib

/-!
Verification of the Rate-Limited Batch Execution Engine of 42ROWS/MailStream.

This file gives a shallow embedding of the parts of the repository that the
specification's testable properties are about:

* `src/js/api/RateLimiter.js` — the token bucket (`wait`, the 100ms refill
  timer), the per-resource circuit breaker (`#isCircuitOpen`, `#openCircuit`,
  `#closeCircuit`, `#incrementFailures`), the priority queue (`#enqueue`),
  the queue drainer (`#processQueue`), `getStatus` and `reset`;
* `src/js/services/EmailSender.js` — the batch state (item statuses,
  progress counters), `stop`, `getProgress`, and the operations the
  processing loop performs on that state;
* `src/js/utils/StorageHelper.js` — `SmartCache`: `set`, `get`, `delete`
  and `#evictOldest`.

JavaScript numbers that only ever hold integral millisecond timestamps and
counters are modelled as `Nat`; token counts, which the refill timer makes
fractional, are modelled as `Rat`.  `Map` entries that may be absent are
modelled as `Option`.
-/

namespace MailStream

namespace RateLimiter

/-- A rate limit, as passed to `setLimit` in `RateLimiter.js`:
`{ rate, interval, burst }`. -/
structure Limit where
  rate : ℚ
  interval : ℚ
  burst : ℚ
deriving DecidableEq

/-- The bucket capacity `limit.burst || limit.rate` used by `setLimit`,
`reset` and `#startTokenRefill` (JS `||`: `burst` is used unless it is the
falsy number `0`). -/
def maxTokens (l : Limit) : ℚ :=
  if l.burst = 0 then l.rate else l.burst

/-- `setLimit` initializes a new resource's token count to
`limit.burst || limit.rate`. -/
def setLimitInitTokens (l : Limit) : ℚ := maxTokens l

/-- The per-tick refill amount of `#startTokenRefill`:
`limit.rate / (1000 / limit.interval)`. -/
def refillRate (l : Limit) : ℚ := l.rate / (1000 / l.interval)

/-- One tick of the `#startTokenRefill` interval timer for one resource:
if the current count is below `burst || rate`, add the refill amount,
capped at `burst || rate`. -/
def refillTick (l : Limit) (t : ℚ) : ℚ :=
  if t < maxTokens l then min (maxTokens l) (t + refillRate l) else t

/-- The atomic updates `wait(resource, units)` and the refill timer perform
on one resource's token count.  `waitEnter` is the state of the count when
`wait` is entered: the fast path (`tokens >= units`) consumes immediately,
otherwise the count is left unchanged and `wait` sleeps.  `waitResume` is
the consumption after the sleep: `Math.max(0, newTokens - units)`.
`refill` is one 100ms tick of `#startTokenRefill`. -/
inductive TokenOp where
  | waitEnter (units : ℚ)
  | waitResume (units : ℚ)
  | refill
deriving DecidableEq

/-- Apply one token-count update. -/
def applyTokenOp (l : Limit) (t : ℚ) : TokenOp → ℚ
  | .waitEnter u => if u ≤ t then t - u else t
  | .waitResume u => max 0 (t - u)
  | .refill => refillTick l t

/-- Run a sequence of token-count updates. -/
def runTokenOps (l : Limit) (t : ℚ) (ops : List TokenOp) : ℚ :=
  ops.foldl (applyTokenOp l) t

/-- Every `wait` call in the source consumes a nonnegative number of units
(the only callers pass the default `units = 1`). -/
def unitsNonneg : TokenOp → Prop
  | .waitEnter u => 0 ≤ u
  | .waitResume u => 0 ≤ u
  | .refill => True

instance : DecidablePred unitsNonneg := by
  intro op; cases op <;> simp [unitsNonneg] <;> infer_instance

theorem refillRate_nonneg (l : Limit) (hr : 0 ≤ l.rate) (hi : 0 ≤ l.interval) :
    0 ≤ refillRate l :=
  div_nonneg hr (div_nonneg (by norm_num) hi)

theorem applyTokenOp_mem (l : Limit) (t : ℚ) (op : TokenOp)
    (hmax : 0 ≤ maxTokens l) (hrefill : 0 ≤ refillRate l)
    (hop : unitsNonneg op) (h0 : 0 ≤ t) (h1 : t ≤ maxTokens l) :
    0 ≤ applyTokenOp l t op ∧ applyTokenOp l t op ≤ maxTokens l := by
  cases op with
  | waitEnter u =>
    simp only [applyTokenOp]
    split
    · exact ⟨by linarith [hop], by
        simp only [unitsNonneg] at hop; linarith⟩
    · exact ⟨h0, h1⟩
  | waitResume u =>
    simp only [applyTokenOp]
    constructor
    · exact le_max_left 0 _
    · simp only [unitsNonneg] at hop
      exact max_le hmax (by linarith)
  | refill =>
    simp only [applyTokenOp, refillTick]
    split
    · exact ⟨le_min hmax (by linarith), min_le_left _ _⟩
    · exact ⟨h0, h1⟩

theorem runTokenOps_mem (l : Limit) (ops : List TokenOp)
    (hmax : 0 ≤ maxTokens l) (hrefill : 0 ≤ refillRate l)
    (hops : ∀ op ∈ ops, unitsNonneg op) :
    ∀ t, 0 ≤ t → t ≤ maxTokens l →
      0 ≤ runTokenOps l t ops ∧ runTokenOps l t ops ≤ maxTokens l := by
  induction ops with
  | nil => intro t h0 h1; exact ⟨h0, h1⟩
  | cons op rest ih =>
    intro t h0 h1
    have hop := hops op (List.mem_cons_self op rest)
    have hstep := applyTokenOp_mem l t op hmax hrefill hop h0 h1
    have := ih (fun o ho => hops o (List.mem_cons_of_mem op ho))
      (applyTokenOp l t op) hstep.1 hstep.2
    simpa [runTokenOps] using this

/-- C1: with a resource's limit `{rate, interval, burst}` fixed after
`setLimit` (which initializes the count to `burst`), any sequence of the
token-count updates performed by `execute`/`wait` calls (fast-path
consumption, post-sleep clamped consumption) interleaved with 100ms refill
ticks keeps the token count within `0 ≤ tokens ≤ burst`: consumption is
clamped at `0` and the refill caps at `burst`. -/
theorem C1_token_conservation (l : Limit) (ops : List TokenOp)
    (hburst : 0 < l.burst) (hrate : 0 ≤ l.rate) (hinterval : 0 ≤ l.interval)
    (hops : ∀ op ∈ ops, unitsNonneg op) :
    0 ≤ runTokenOps l (setLimitInitTokens l) ops ∧
      runTokenOps l (setLimitInitTokens l) ops ≤ l.burst := by
  have hmaxeq : maxTokens l = l.burst := by
    simp [maxTokens, ne_of_gt hburst]
  have hmax : 0 ≤ maxTokens l := by rw [hmaxeq]; exact le_of_lt hburst
  have hrefill := refillRate_nonneg l hrate hinterval
  have hinit0 : 0 ≤ setLimitInitTokens l := by
    simpa [setLimitInitTokens] using hmax
  have hinit1 : setLimitInitTokens l ≤ maxTokens l := le_refl _
  have := runTokenOps_mem l ops hmax hrefill hops (setLimitInitTokens l) hinit0 hinit1
  rw [hmaxeq] at this
  exact this

/-- Witness for C1 at the concrete `default` limit `{rate 10, interval 1000,
burst 20}` with a fast-path consume, a refill tick, and a clamped consume. -/
theorem C1_token_conservation_witness :
    0 ≤ runTokenOps ⟨10, 1000, 20⟩ (setLimitInitTokens ⟨10, 1000, 20⟩)
        [.waitEnter 1, .refill, .waitResume 25] ∧
      runTokenOps ⟨10, 1000, 20⟩ (setLimitInitTokens ⟨10, 1000, 20⟩)
        [.waitEnter 1, .refill, .waitResume 25] ≤ 20 := by
  exact C1_token_conservation ⟨10, 1000, 20⟩ [.waitEnter 1, .refill, .waitResume 25]
    (by norm_num) (by norm_num) (by norm_num)
    (by intro op hop; fin_cases hop <;> simp [unitsNonneg])

/-- The `state` field of a `#circuitBreaker` entry: the strings
`'closed' | 'open' | 'half-open'`. -/
inductive CBKind where
  | closed
  | opened
  | halfOpen
deriving DecidableEq

/-- One `#circuitBreaker` map entry.  `#openCircuit` is the only writer of
`openedAt`/`timeout`; entries created by `#incrementFailures`' default have
those fields absent, modelled as `0` (they are only read while the state is
`opened`, which only `#openCircuit` produces). -/
structure CBState where
  state : CBKind
  failures : ℕ
  openedAt : ℕ
  timeout : ℕ
deriving DecidableEq

/-- `#openCircuit`: store `{state: 'open', openedAt: now, timeout: 30000,
failures: 0}`. -/
def openCircuit (now : ℕ) : Option CBState :=
  some ⟨.opened, 0, now, 30000⟩

/-- `#closeCircuit`: if an entry exists and its state is not `'closed'`,
set the state to `'closed'` and the failure count to `0`; otherwise leave
the map untouched. -/
def closeCircuit (cb : Option CBState) : Option CBState :=
  match cb with
  | none => none
  | some s =>
    if s.state ≠ CBKind.closed then
      some { s with state := .closed, failures := 0 }
    else
      some s

/-- `#incrementFailures`: fetch the entry (defaulting to
`{state: 'closed', failures: 0}`), increment `failures`, then open the
circuit if `failures >= 5 && state === 'closed'`, else store the updated
entry. -/
def incrementFailures (now : ℕ) (cb : Option CBState) : Option CBState :=
  let s := cb.getD ⟨.closed, 0, 0, 0⟩
  let s1 : CBState := { s with failures := s.failures + 1 }
  if 5 ≤ s1.failures ∧ s1.state = CBKind.closed then
    openCircuit now
  else
    some s1

/-- `#isCircuitOpen`: no entry means not open; an `'open'` entry whose
timeout has elapsed (`Date.now() - openedAt > timeout`, strictly) is
rewritten to `'half-open'` and reported not open; an `'open'` entry within
its timeout is reported open; anything else is reported not open.  Returns
the reported flag together with the updated map entry. -/
def isCircuitOpen (now : ℕ) (cb : Option CBState) : Bool × Option CBState :=
  match cb with
  | none => (false, none)
  | some s =>
    if s.state = CBKind.opened then
      if s.timeout < now - s.openedAt then
        (false, some { s with state := .halfOpen })
      else
        (true, some s)
    else
      (false, some s)

/-- `#processQueue`'s success path acts on the retry-attempt counter and the
circuit breaker: `this.#retryAttempts.set(resource, 0)` then
`this.#closeCircuit(resource)`. -/
def onTaskSuccess (retryAttempts : ℕ) (cb : Option CBState) : ℕ × Option CBState :=
  (0, closeCircuit cb)

/-- The events that drive one resource's circuit-breaker entry: a
retry-exhausted task rejection (`#incrementFailures`), a task success
(`#closeCircuit` via `#processQueue`), and a circuit check
(`#isCircuitOpen`, run by `execute` and `getStatus`). -/
inductive CBEvent where
  | taskFailure (now : ℕ)
  | taskSuccess
  | check (now : ℕ)
deriving DecidableEq

/-- Apply one circuit-breaker event to the map entry. -/
def applyCBEvent (cb : Option CBState) : CBEvent → Option CBState
  | .taskFailure now => incrementFailures now cb
  | .taskSuccess => onTaskSuccess 0 cb |>.2
  | .check now => (isCircuitOpen now cb).2

/-- Run a sequence of circuit-breaker events from a given entry. -/
def runCBEvents (cb : Option CBState) (evs : List CBEvent) : Option CBState :=
  evs.foldl applyCBEvent cb

/-- C2 counterexample: on a fresh resource, five retry-exhausted failures at
time 0 open the circuit; an `execute` at time 30001 (past the 30000ms open
timeout) finds it half-open and is attempted; that attempt's retry-exhausted
failure leaves the state `half-open` with one recorded failure — it does
NOT re-open the circuit as the claim states, because `#incrementFailures`
only opens when the state is `'closed'`. -/
theorem C2_circuit_counterexample :
    runCBEvents none
        [.taskFailure 0, .taskFailure 0, .taskFailure 0, .taskFailure 0,
         .taskFailure 0, .check 30001, .taskFailure 30001]
      = some ⟨.halfOpen, 1, 0, 30000⟩ ∧
    CBKind.halfOpen ≠ CBKind.opened := by
  constructor
  · rfl
  · decide

/-- C2 (amended): the per-resource circuit breaker follows this state
machine: starting closed, it opens exactly when the failure counter reaches
5 on a retry-exhausted rejection while closed (the counter is reset to 0 on
opening); while open, a check made strictly after the 30000ms open timeout
has elapsed moves it to half-open and lets the call be attempted, while a
check within the timeout rejects; a success while half-open closes it and
zeroes the counter; a retry-exhausted failure while half-open only
increments the counter and leaves the state half-open (the circuit can
re-open only after it has first closed again). -/
theorem C2_circuit_machine :
    (∀ (f oa tmo now : ℕ),
        incrementFailures now (some ⟨.closed, f, oa, tmo⟩) =
          if 5 ≤ f + 1 then openCircuit now else some ⟨.closed, f + 1, oa, tmo⟩) ∧
    (∀ (s : CBState) (now : ℕ), s.state = CBKind.opened →
        s.timeout < now - s.openedAt →
        isCircuitOpen now (some s) = (false, some { s with state := .halfOpen })) ∧
    (∀ (s : CBState) (now : ℕ), s.state = CBKind.opened →
        ¬ s.timeout < now - s.openedAt →
        isCircuitOpen now (some s) = (true, some s)) ∧
    (∀ s : CBState, s.state = CBKind.halfOpen →
        closeCircuit (some s) = some { s with state := .closed, failures := 0 }) ∧
    (∀ (s : CBState) (now : ℕ), s.state = CBKind.halfOpen →
        incrementFailures now (some s) = some { s with failures := s.failures + 1 }) := by
  refine ⟨?_, ?_, ?_, ?_, ?_⟩
  · intro f oa tmo now
    by_cases h : 5 ≤ f + 1
    · simp [incrementFailures, h]
    · simp [incrementFailures, h]
  · intro s now hs ht
    simp [isCircuitOpen, hs, ht]
  · intro s now hs ht
    simp [isCircuitOpen, hs, ht]
  · intro s hs
    simp [closeCircuit, hs]
  · intro s now hs
    simp [incrementFailures, hs]

/-- Witness for C2 (amended) at concrete inputs: the 5th failure from closed
opens; a check at 30001 on a circuit opened at 0 half-opens; a check at
29999 stays open; a success while half-open closes with zero failures; a
failure while half-open stays half-open. -/
theorem C2_circuit_machine_witness :
    incrementFailures 7 (some ⟨.closed, 4, 0, 0⟩) = openCircuit 7 ∧
    isCircuitOpen 30001 (some ⟨.opened, 0, 0, 30000⟩)
      = (false, some ⟨.halfOpen, 0, 0, 30000⟩) ∧
    isCircuitOpen 29999 (some ⟨.opened, 0, 0, 30000⟩)
      = (true, some ⟨.opened, 0, 0, 30000⟩) ∧
    closeCircuit (some ⟨.halfOpen, 2, 0, 30000⟩) = some ⟨.closed, 0, 0, 30000⟩ ∧
    incrementFailures 40000 (some ⟨.halfOpen, 0, 0, 30000⟩)
      = some ⟨.halfOpen, 1, 0, 30000⟩ := by
  obtain ⟨h1, h2, h3, h4, h5⟩ := C2_circuit_machine
  refine ⟨?_, ?_, ?_, ?_, ?_⟩
  · have := h1 4 0 0 7
    simpa using this
  · exact h2 ⟨.opened, 0, 0, 30000⟩ 30001 rfl (by norm_num)
  · exact h3 ⟨.opened, 0, 0, 30000⟩ 29999 rfl (by norm_num)
  · exact h4 ⟨.halfOpen, 2, 0, 30000⟩ rfl
  · exact h5 ⟨.halfOpen, 0, 0, 30000⟩ 40000 rfl

/-- C3 counterexample: a task success while the circuit-breaker entry is
`closed` with 3 recorded failures leaves the failure counter at 3 —
`#closeCircuit` only rewrites entries whose state is not `'closed'`, so the
counter is not reset as the claim states. -/
theorem C3_success_counterexample :
    (onTaskSuccess 2 (some ⟨.closed, 3, 0, 0⟩)).2 = some ⟨.closed, 3, 0, 0⟩ ∧
    (3 : ℕ) ≠ 0 := by
  constructor
  · rfl
  · decide

/-- C3 (amended): whenever a queued task succeeds, the resource's
retry-attempt counter is set to zero; if the circuit state was half-open
(or anything other than closed) the entry is rewritten to closed with its
failure counter zeroed, but a success while already closed leaves the
circuit-breaker entry — including its failure counter — unchanged. -/
theorem C3_success_effect :
    (∀ (r : ℕ) (s : CBState), s.state = CBKind.halfOpen →
        onTaskSuccess r (some s) = (0, some { s with state := .closed, failures := 0 })) ∧
    (∀ (r : ℕ) (s : CBState), s.state = CBKind.closed →
        onTaskSuccess r (some s) = (0, some s)) ∧
    (∀ r : ℕ, onTaskSuccess r none = (0, none)) := by
  refine ⟨?_, ?_, ?_⟩
  · intro r s hs
    simp [onTaskSuccess, closeCircuit, hs]
  · intro r s hs
    simp [onTaskSuccess, closeCircuit, hs]
  · intro r
    rfl

/-- Witness for C3 (amended) at concrete inputs. -/
theorem C3_success_effect_witness :
    onTaskSuccess 4 (some ⟨.halfOpen, 2, 5, 30000⟩)
      = (0, some ⟨.closed, 0, 5, 30000⟩) ∧
    onTaskSuccess 4 (some ⟨.closed, 0, 0, 0⟩) = (0, some ⟨.closed, 0, 0, 0⟩) := by
  obtain ⟨h1, h2, -⟩ := C3_success_effect
  exact ⟨h1 4 ⟨.halfOpen, 2, 5, 30000⟩ rfl, h2 4 ⟨.closed, 0, 0, 0⟩ rfl⟩

/-- A queued task of `execute`: the scheduling-relevant fields of the task
object (`fn`, `resolve` and `reject` are opaque; `id` identifies the task's
promise so that resolutions can be observed). -/
structure Task where
  id : ℕ
  priority : ℤ
  retries : ℕ
  timeout : ℕ
  addedAt : ℕ
  attempts : ℕ
deriving DecidableEq

/-- `#enqueue`: `queue.findIndex(t => t.priority < task.priority)` and
`splice` — insert the new task immediately before the first queued task of
strictly smaller priority, or push it at the end. -/
def enqueue (task : Task) : List Task → List Task
  | [] => [task]
  | t :: rest =>
    if t.priority < task.priority then
      task :: t :: rest
    else
      t :: enqueue task rest

/-- The observable outcome of one iteration of `#processQueue`'s loop:
a stale task rejected with `'Task timeout'`, a task resolved after its
function succeeded, a retry-exhausted task rejected with its error, or a
failed task re-enqueued with backoff. -/
inductive DrainEvent where
  | rejectedTimeout (t : Task)
  | resolved (t : Task)
  | rejectedError (t : Task)
  | requeued (t : Task)
deriving DecidableEq

/-- The per-resource state touched by one iteration of `#processQueue`:
the queue, the token count, the circuit-breaker entry and the
retry-attempt counter. -/
structure ResourceState where
  queue : List Task
  tokens : ℚ
  cb : Option CBState
  retryAttempts : ℕ
deriving DecidableEq

/-- One iteration of `#processQueue`'s loop body with no interleaved
`execute` calls, with the task function's success supplied by the oracle
`fnSucceeds`.  In source order: take `queue[0]`; if
`Date.now() - task.addedAt > task.timeout`, shift and reject with the
timeout error (before `wait` runs and before `fn` is invoked); otherwise
`wait(resource)` consumes one token (clamped at 0; refill ticks between
iterations are the separate `TokenOp.refill` steps), the task function
runs, and on success the task is shifted and resolved, retry attempts are
zeroed and the circuit closed, while on failure the attempt counter is
bumped and the task is either shifted and rejected with
`#incrementFailures` (attempts exhausted) or re-enqueued after backoff. -/
def processHead (now : ℕ) (fnSucceeds : Bool) (s : ResourceState) :
    ResourceState × Option DrainEvent :=
  match s.queue with
  | [] => (s, none)
  | task :: rest =>
    if task.timeout < now - task.addedAt then
      ({ s with queue := rest }, some (.rejectedTimeout task))
    else
      let tokens1 := max 0 (s.tokens - 1)
      if fnSucceeds then
        ({ s with queue := rest, tokens := tokens1,
                  retryAttempts := 0, cb := closeCircuit s.cb },
         some (.resolved task))
      else
        let task1 : Task := { task with attempts := task.attempts + 1 }
        if task.retries ≤ task1.attempts then
          ({ s with queue := rest, tokens := tokens1,
                    cb := incrementFailures now s.cb },
           some (.rejectedError task1))
        else
          ({ s with queue := enqueue task1 rest, tokens := tokens1 },
           some (.requeued task1))

/-- C6: a task at the head of the queue whose time in queue `now − addedAt`
strictly exceeds its configured timeout is rejected with the timeout error:
the queue drops it, the token count, circuit-breaker entry and
retry-attempt counter are untouched, and the outcome does not depend on
the task's function (it is never invoked). -/
theorem C6_timeout_rejection (now : ℕ) (fnSucceeds : Bool) (s : ResourceState)
    (task : Task) (rest : List Task)
    (hq : s.queue = task :: rest)
    (ht : task.timeout < now - task.addedAt) :
    processHead now fnSucceeds s
      = ({ s with queue := rest }, some (.rejectedTimeout task)) ∧
    (processHead now fnSucceeds s).1.tokens = s.tokens ∧
    (processHead now fnSucceeds s).1.cb = s.cb ∧
    (processHead now fnSucceeds s).1.retryAttempts = s.retryAttempts ∧
    (∀ b : Bool, processHead now b s = processHead now fnSucceeds s) := by
  have h : processHead now fnSucceeds s
      = ({ s with queue := rest }, some (.rejectedTimeout task)) := by
    simp [processHead, hq, ht]
  refine ⟨h, by rw [h], by rw [h], by rw [h], ?_⟩
  intro b
  have hb : processHead now b s
      = ({ s with queue := rest }, some (.rejectedTimeout task)) := by
    simp [processHead, hq, ht]
  rw [hb, h]

/-- Witness for C6: a task enqueued at time 0 with a 30000ms timeout,
drained at time 40000. -/
theorem C6_timeout_rejection_witness :
    processHead 40000 true ⟨[⟨7, 0, 3, 30000, 0, 0⟩], 5, none, 2⟩
      = (⟨[], 5, none, 2⟩, some (.rejectedTimeout ⟨7, 0, 3, 30000, 0, 0⟩)) := by
  exact (C6_timeout_rejection 40000 true ⟨[⟨7, 0, 3, 30000, 0, 0⟩], 5, none, 2⟩
    ⟨7, 0, 3, 30000, 0, 0⟩ [] rfl (by norm_num)).1

/-- The synchronous phase of several `execute` calls issued back-to-back on
an idle resource.  The first call enqueues its task and starts
`#processQueue`, which synchronously captures `const task = queue[0]` and
then suspends at `await this.wait(resource)` (an `await` always yields to
the microtask queue, even on the fast path).  The remaining calls run
before that microtask resumes: each only enqueues, since
`#isProcessing` makes their `#processQueue` return at once.  Result: the
task captured by the drainer, and the queue as it stands when the drainer
resumes. -/
def submitAll (ts : List Task) : Option Task × List Task :=
  match ts with
  | [] => (none, [])
  | t :: rest =>
    let q1 := enqueue t []
    (q1.head?, rest.foldl (fun q t1 => enqueue t1 q) q1)

/-- The drainer's run after the synchronous phase, with ample tokens, no
timeouts, and every task function succeeding, replayed iteration by
iteration.  Each iteration executes the task captured at its start, then
runs `queue.shift()` — which removes the *current* head of the queue, not
necessarily the captured task — and `task.resolve(...)`, which settles the
captured task's promise (a second resolve of the same promise is a no-op).
After the first resumed iteration no further `execute` calls interleave,
so each subsequent iteration captures the then-current head.  Returns the
ids of the promises in order of first resolution. -/
def drainFrom : ℕ → Task → List Task → List ℕ → List ℕ
  | 0, _, _, res => res
  | fuel + 1, captured, q, res =>
    let q1 := q.drop 1
    let res1 := if captured.id ∈ res then res else res ++ [captured.id]
    match q1 with
    | [] => res1
    | t :: _ => drainFrom fuel t q1 res1

/-- Order in which the promises of synchronously submitted tasks settle. -/
def completionOrder (fuel : ℕ) (ts : List Task) : List ℕ :=
  match submitAll ts with
  | (none, _) => []
  | (some c, q) => drainFrom fuel c q []

/-- The three tasks of the claim's scenario, ids equal to priorities. -/
def taskPri1 : Task := ⟨1, 1, 3, 30000, 0, 0⟩

def taskPri5 : Task := ⟨5, 5, 3, 30000, 0, 0⟩

def taskPri3 : Task := ⟨3, 3, 3, 30000, 0, 0⟩

/-- C5: `#enqueue` does keep the queue sorted by descending priority — after
the three submissions the queue is `[priority 5, priority 3, priority 1]` —
but the drainer captured the priority-1 task before the other two were
inserted ahead of it, so its `queue.shift()` calls remove tasks other than
the ones it executed: the tasks complete in order `1, 3` and the
priority-5 task's promise never settles (its queue entry is shifted away
while the priority-1 task's result is being resolved), contradicting the
claimed completion order `5, 3, 1`. -/
theorem C5_priority_order_starvation :
    (submitAll [taskPri1, taskPri5, taskPri3]).2 = [taskPri5, taskPri3, taskPri1] ∧
    completionOrder 10 [taskPri1, taskPri5, taskPri3] = [1, 3] ∧
    completionOrder 10 [taskPri1, taskPri5, taskPri3] ≠ [5, 3, 1] := by
  refine ⟨rfl, rfl, ?_⟩
  have h2 : completionOrder 10 [taskPri1, taskPri5, taskPri3] = [1, 3] := rfl
  rw [h2]
  decide

/-- The per-resource slice of the `RateLimiter` instance's maps: the
entries of `#tokens`, `#limits`, `#queues`, `#circuitBreaker` and
`#retryAttempts` for one resource name (`none` = key absent).  Queues are
created as plain arrays (`#enqueue` does `this.#queues.set(resource, [])`). -/
structure RLResource where
  tokens : Option ℚ
  limit : Option Limit
  queue : Option (List Task)
  cb : Option CBState
  retryAttempts : Option ℕ
deriving DecidableEq

/-- The object returned by `getStatus`. -/
structure Status where
  tokens : ℚ
  limit : Option Limit
  queueSize : ℕ
  circuitOpen : Bool
  retryAttempts : ℕ
deriving DecidableEq

/-- `getStatus(resource)`: returns `#tokens.get(resource) || 0`, the limit
entry, `this.#queues.get(resource)?.size || 0`, `#isCircuitOpen(resource)`
and `#retryAttempts.get(resource) || 0`.  Queues are arrays, and
`Array.prototype.size` does not exist, so `?.size` evaluates to `undefined`
and `undefined || 0` to `0`: the reported `queueSize` is `0` no matter how
many tasks are queued.  `#isCircuitOpen` may rewrite an `'open'` entry
whose timeout has elapsed to `'half-open'`, so the call also returns the
updated resource state. -/
def getStatus (now : ℕ) (r : RLResource) : Status × RLResource :=
  let checked := isCircuitOpen now r.cb
  (⟨r.tokens.getD 0, r.limit, 0, checked.1, r.retryAttempts.getD 0⟩,
   { r with cb := checked.2 })

/-- A resource with two queued tasks and a circuit opened at time 0. -/
def statusProbe : RLResource :=
  ⟨some 5, some ⟨10, 1000, 20⟩, some [taskPri1, taskPri3],
   some ⟨.opened, 0, 0, 30000⟩, some 1⟩

/-- C9, evaluated at the failing input: with two tasks queued,
`getStatus` reports `queueSize = 0` (reading `.size` of an array), not the
queue's length 2; and the call is not side-effect free — made at time
30001 on a circuit opened at time 0 with a 30000ms timeout, it rewrites
the circuit-breaker entry from `open` to `half-open`. -/
theorem C9_getStatus_code_eval :
    (getStatus 30001 statusProbe).1.queueSize = 0 ∧
    (statusProbe.queue.getD []).length = 2 ∧
    (0 : ℕ) ≠ 2 ∧
    (getStatus 30001 statusProbe).1.circuitOpen = false ∧
    (getStatus 30001 statusProbe).2.cb = some ⟨.halfOpen, 0, 0, 30000⟩ ∧
    statusProbe.cb = some ⟨.opened, 0, 0, 30000⟩ ∧
    (getStatus 30001 statusProbe).2 ≠ statusProbe := by
  refine ⟨rfl, rfl, by decide, rfl, rfl, rfl, ?_⟩
  intro h
  have := congrArg RLResource.cb h
  simp only [getStatus, statusProbe] at this
  exact absurd (Option.some.inj this) (by decide)

/-- The result of `reset(resource)`: the resource state when control
leaves `reset`, the tasks that were rejected with the
`'Rate limiter reset'` error, and the exception `reset` itself threw, if
any. -/
structure ResetResult where
  res : RLResource
  rejected : List Task
  thrown : Option String
deriving DecidableEq

/-- `reset(resource)`: if a limit exists, refill the token entry to
`limit.burst || limit.rate`; delete the `#retryAttempts` and
`#circuitBreaker` entries; then, if a queue entry exists, reject every
queued task with `new Error('Rate limiter reset')` via `forEach` and call
`queue.clear()`.  Queues are arrays (`#enqueue` creates them with `[]`)
and `Array.prototype.clear` does not exist, so `queue.clear()` throws
`TypeError: queue.clear is not a function`: the queue map entry keeps all
its (rejected) tasks and the error propagates out of `reset`. -/
def reset (r : RLResource) : ResetResult :=
  let tokens1 : Option ℚ :=
    match r.limit with
    | some l => some (maxTokens l)
    | none => r.tokens
  let r1 : RLResource := { r with tokens := tokens1, retryAttempts := none, cb := none }
  match r1.queue with
  | none => ⟨r1, [], none⟩
  | some q => ⟨r1, q, some "TypeError: queue.clear is not a function"⟩

/-- A resource with a configured limit, two queued tasks, some
circuit-breaker and retry state. -/
def resetProbe : RLResource :=
  ⟨some 0, some ⟨10, 1000, 20⟩, some [taskPri1, taskPri3],
   some ⟨.closed, 2, 0, 0⟩, some 1⟩

/-- C10, evaluated at the failing input: `reset` on a resource whose queue
array exists does refill the tokens to `burst`, clear the retry and
circuit-breaker entries and reject both queued tasks — but it then throws
a `TypeError` from `queue.clear()` (queues are arrays), leaving the queue
still holding both tasks rather than empty. -/
theorem C10_reset_code_eval :
    (reset resetProbe).res.tokens = some 20 ∧
    (reset resetProbe).res.retryAttempts = none ∧
    (reset resetProbe).res.cb = none ∧
    (reset resetProbe).rejected = [taskPri1, taskPri3] ∧
    (reset resetProbe).thrown.isSome = true ∧
    (reset resetProbe).res.queue = some [taskPri1, taskPri3] ∧
    (reset resetProbe).res.queue ≠ some [] := by
  refine ⟨rfl, rfl, rfl, rfl, rfl, rfl, ?_⟩
  intro h
  have h2 : (reset resetProbe).res.queue = some [taskPri1, taskPri3] := rfl
  rw [h2] at h
  have := Option.some.inj h
  exact absurd this (by decide)

end RateLimiter

namespace EmailSender

/-- The values the source ever assigns to an item's `status` field:
`'pending'` (initial), `'sent'`, `'failed'`, `'cancelled'`. -/
inductive EmailStatus where
  | pending
  | sent
  | failed
  | cancelled
deriving DecidableEq

/-- One entry of the `#queue` array: the fields relevant to batch
accounting (`to`, `subject`, `body`, `error`, `sentAt` are opaque). -/
structure EmailItem where
  id : ℕ
  status : EmailStatus
  attempts : ℕ
deriving DecidableEq

/-- The `#progress` counters. -/
structure Progress where
  total : ℕ
  sent : ℕ
  failed : ℕ
  skipped : ℕ
deriving DecidableEq

/-- The batch-relevant private state of `EmailSender`. -/
structure SenderState where
  queue : List EmailItem
  processing : Bool
  paused : Bool
  progress : Progress
  startTime : Option ℕ
deriving DecidableEq

/-- Number of queue items currently carrying a given status
(`this.#queue.filter(e => e.status === st).length`). -/
def countStatus (st : EmailStatus) (q : List EmailItem) : ℕ :=
  (q.filter (fun e => e.status == st)).length

/-- `processCSVDirect` / `#prepareQueue`: a fresh queue of `n` items, all
`'pending'` with `attempts: 0`, and `#progress` set to
`{total: n, sent: 0, failed: 0, skipped: 0}`. -/
def prepareQueue (n : ℕ) : SenderState :=
  ⟨(List.range n).map (fun i => ⟨i, .pending, 0⟩), false, false, ⟨n, 0, 0, 0⟩, none⟩

/-- `startBatch`: returns early if already processing and not paused, or if
the queue is empty; otherwise sets `processing`, clears `paused` and
records the start time. -/
def startBatch (now : ℕ) (s : SenderState) : SenderState :=
  if s.processing ∧ ¬ s.paused then s
  else if s.queue.length = 0 then s
  else { s with processing := true, paused := false, startTime := some now }

/-- Replace the `i`-th element of a queue. -/
def updateAt (f : EmailItem → EmailItem) : ℕ → List EmailItem → List EmailItem
  | _, [] => []
  | 0, e :: es => f e :: es
  | n + 1, e :: es => e :: updateAt f n es

/-- `#processSequential`'s success path for the (pending) item being
processed: `email.status = 'sent'` and `this.#progress.sent++`. -/
def markSuccessAt (i : ℕ) (s : SenderState) : SenderState :=
  match s.queue.get? i with
  | some e =>
    if e.status = .pending then
      { s with queue := updateAt (fun e0 => { e0 with status := .sent }) i s.queue,
               progress := { s.progress with sent := s.progress.sent + 1 } }
    else s
  | none => s

/-- `#processSequential`'s failure path for the (pending) item being
processed: `email.attempts++`; if `attempts >= 3` the item is marked
`'failed'` and `this.#progress.failed++`, otherwise it stays `'pending'`
for a later pass. -/
def markFailureAt (i : ℕ) (s : SenderState) : SenderState :=
  match s.queue.get? i with
  | some e =>
    if e.status = .pending then
      let e1 : EmailItem := { e with attempts := e.attempts + 1 }
      if 3 ≤ e1.attempts then
        { s with queue := updateAt (fun _ => { e1 with status := .failed }) i s.queue,
                 progress := { s.progress with failed := s.progress.failed + 1 } }
      else
        { s with queue := updateAt (fun _ => e1) i s.queue }
    else s
  | none => s

/-- `pause()`: only while processing and not already paused. -/
def pause (s : SenderState) : SenderState × Bool :=
  if ¬ s.processing ∨ s.paused then (s, false)
  else ({ s with paused := true }, true)

/-- `resume()`: only while paused (it then re-invokes `startBatch`, a
separate step). -/
def resume (s : SenderState) : SenderState × Bool :=
  if ¬ s.paused then (s, false)
  else ({ s with paused := false }, true)

/-- The per-item effect of `stop()`: every `'pending'` item becomes
`'cancelled'`, everything else is untouched. -/
def cancelPending (e : EmailItem) : EmailItem :=
  if e.status = .pending then { e with status := .cancelled } else e

/-- `stop()`: returns `false` if no batch is in progress; otherwise clears
`processing` and `paused` and marks every remaining `'pending'` item
`'cancelled'`. -/
def stop (s : SenderState) : SenderState × Bool :=
  if ¬ s.processing then (s, false)
  else ({ s with processing := false, paused := false,
                 queue := s.queue.map cancelPending }, true)

/-- `retryFailed()`: every `'failed'` item goes back to `'pending'` with
`attempts: 0`, and `#progress.failed` is reset to `0`. -/
def retryFailed (s : SenderState) : SenderState :=
  { s with
    queue := s.queue.map (fun e =>
      if e.status = .failed then { e with status := .pending, attempts := 0 } else e),
    progress := { s.progress with failed := 0 } }

/-- `startBatch`'s `finally` clause: `this.#processing = false`. -/
def finishRun (s : SenderState) : SenderState :=
  { s with processing := false }

/-- The state updates a batch run performs. -/
inductive Step : SenderState → SenderState → Prop
  | start (now : ℕ) (s : SenderState) : Step s (startBatch now s)
  | success (i : ℕ) (s : SenderState) : Step s (markSuccessAt i s)
  | failure (i : ℕ) (s : SenderState) : Step s (markFailureAt i s)
  | pauseStep (s : SenderState) : Step s (pause s).1
  | resumeStep (s : SenderState) : Step s (resume s).1
  | stopStep (s : SenderState) : Step s (stop s).1
  | retryStep (s : SenderState) : Step s (retryFailed s)
  | finishStep (s : SenderState) : Step s (finishRun s)

/-- States reachable from a freshly prepared queue by batch operations. -/
inductive Reachable : SenderState → Prop
  | init (n : ℕ) : Reachable (prepareQueue n)
  | step {s s1 : SenderState} : Reachable s → Step s s1 → Reachable s1

theorem length_updateAt (f : EmailItem → EmailItem) :
    ∀ (i : ℕ) (l : List EmailItem), (updateAt f i l).length = l.length := by
  intro i l
  induction l generalizing i with
  | nil => cases i <;> rfl
  | cons e es ih =>
    cases i with
    | zero => rfl
    | succ n => simpa [updateAt] using ih n

theorem countStatus_cons (st : EmailStatus) (e : EmailItem) (es : List EmailItem) :
    countStatus st (e :: es) = (if e.status = st then 1 else 0) + countStatus st es := by
  by_cases h : e.status = st <;>
    simp [countStatus, List.filter_cons, h, Nat.add_comm]

theorem countStatus_partition (q : List EmailItem) :
    countStatus .sent q + countStatus .failed q + countStatus .cancelled q +
      countStatus .pending q = q.length := by
  induction q with
  | nil => rfl
  | cons e es ih =>
    rw [countStatus_cons, countStatus_cons, countStatus_cons, countStatus_cons,
        List.length_cons]
    cases h : e.status <;> simp [h] <;> omega

theorem step_preserves_total {s s1 : SenderState} (hstep : Step s s1)
    (h : s.progress.total = s.queue.length) :
    s1.progress.total = s1.queue.length := by
  cases hstep with
  | start now s =>
    simp only [startBatch]
    split
    · exact h
    · split
      · exact h
      · exact h
  | success i s =>
    simp only [markSuccessAt]
    cases hq : s.queue.get? i with
    | none => simp only [hq]; exact h
    | some e =>
      simp only [hq]
      split
      · simpa [length_updateAt] using h
      · exact h
  | failure i s =>
    simp only [markFailureAt]
    cases hq : s.queue.get? i with
    | none => simp only [hq]; exact h
    | some e =>
      simp only [hq]
      split
      · split
        · simpa [length_updateAt] using h
        · simpa [length_updateAt] using h
      · exact h
  | pauseStep s =>
    simp only [pause]
    split
    · exact h
    · exact h
  | resumeStep s =>
    simp only [resume]
    split
    · exact h
    · exact h
  | stopStep s =>
    simp only [stop]
    split
    · exact h
    · simpa using h
  | retryStep s =>
    simpa [retryFailed] using h
  | finishStep s =>
    exact h

theorem reachable_total_eq_length {s : SenderState} (h : Reachable s) :
    s.progress.total = s.queue.length := by
  induction h with
  | init n => simp [prepareQueue]
  | step _ hstep ih => exact step_preserves_total hstep ih

theorem cancelPending_not_pending (e : EmailItem) :
    (cancelPending e).status ≠ EmailStatus.pending := by
  cases h : e.status <;> simp [cancelPending, h]

theorem countStatus_pending_map_cancel (q : List EmailItem) :
    countStatus .pending (q.map cancelPending) = 0 := by
  induction q with
  | nil => rfl
  | cons e es ih =>
    rw [List.map_cons, countStatus_cons, if_neg (cancelPending_not_pending e), ih]

/-- C4: at every snapshot reachable in a batch run, the items with status
`sent`, `failed`, `cancelled` and `pending` partition the queue — their
counts sum to the run's `total` — and if `stop()` is called while the
batch is running, the resulting queue has no `pending` item: every item
that was `pending` is `cancelled` at its position. -/
theorem C4_partition_and_stop (s : SenderState) (h : Reachable s) :
    countStatus .sent s.queue + countStatus .failed s.queue +
        countStatus .cancelled s.queue + countStatus .pending s.queue
      = s.progress.total ∧
    (s.processing = true →
      countStatus .pending (stop s).1.queue = 0 ∧
      ∀ (i : ℕ) (e : EmailItem), s.queue.get? i = some e →
        e.status = .pending →
        ((stop s).1.queue.get? i).map EmailItem.status = some .cancelled) := by
  constructor
  · rw [reachable_total_eq_length h]
    exact countStatus_partition s.queue
  · intro hproc
    have hstop : (stop s).1 = { s with processing := false, paused := false,
                                       queue := s.queue.map cancelPending } := by
      simp [stop, hproc]
    constructor
    · rw [hstop]
      exact countStatus_pending_map_cancel s.queue
    · intro i e hget hpend
      rw [hstop]
      simp only [List.get?_map, hget, Option.map_some']
      simp [cancelPending, hpend]

/-- Witness for C4: a two-item run, started, first item sent, then stopped:
counts `1 + 0 + 0 + 1 = 2` before the stop, and no pending item after. -/
theorem C4_partition_and_stop_witness :
    (countStatus .sent (markSuccessAt 0 (startBatch 5 (prepareQueue 2))).queue +
        countStatus .failed (markSuccessAt 0 (startBatch 5 (prepareQueue 2))).queue +
        countStatus .cancelled (markSuccessAt 0 (startBatch 5 (prepareQueue 2))).queue +
        countStatus .pending (markSuccessAt 0 (startBatch 5 (prepareQueue 2))).queue
      = (markSuccessAt 0 (startBatch 5 (prepareQueue 2))).progress.total) ∧
    countStatus .pending (stop (markSuccessAt 0 (startBatch 5 (prepareQueue 2)))).1.queue = 0 := by
  have hr : Reachable (markSuccessAt 0 (startBatch 5 (prepareQueue 2))) :=
    Reachable.step (Reachable.step (Reachable.init 2) (Step.start 5 _))
      (Step.success 0 _)
  have h := C4_partition_and_stop _ hr
  exact ⟨h.1, (h.2 (by decide)).1⟩

/-- The object returned by `getProgress()`. -/
structure ProgressView where
  total : ℕ
  sent : ℕ
  failed : ℕ
  skipped : ℕ
  pending : ℕ
  percentage : ℤ
  elapsedTime : ℕ
  estimatedTimeRemaining : ℚ
  isPaused : Bool
  isProcessing : Bool
deriving DecidableEq

/-- `getProgress()`: a computed snapshot.  The method only reads the
sender's fields, which the embedding reflects by returning a view and no
state: `pending` counts the `'pending'` items, `elapsedTime` is
`now − startTime` (0 before a first `startBatch`), `averageTime` is
`elapsed / sent` when `sent > 0` and `0` otherwise, `percentage` is
`Math.round((sent + failed) / total * 100)` when `total > 0` and `0`
otherwise, and `estimatedTimeRemaining` is `pending × averageTime`.
`Math.round` on a nonnegative value is `⌊x + 1/2⌋`, Mathlib's `round`. -/
def getProgress (now : ℕ) (s : SenderState) : ProgressView :=
  let pending := countStatus .pending s.queue
  let elapsed : ℕ :=
    match s.startTime with
    | some t0 => now - t0
    | none => 0
  let averageTime : ℚ :=
    if 0 < s.progress.sent then (elapsed : ℚ) / (s.progress.sent : ℚ) else 0
  { total := s.progress.total
    sent := s.progress.sent
    failed := s.progress.failed
    skipped := s.progress.skipped
    pending := pending
    percentage :=
      if 0 < s.progress.total then
        round ((((s.progress.sent : ℚ) + (s.progress.failed : ℚ)) /
          (s.progress.total : ℚ)) * 100)
      else 0
    elapsedTime := elapsed
    estimatedTimeRemaining := (pending : ℚ) * averageTime
    isPaused := s.paused
    isProcessing := s.processing }

/-- A mid-run snapshot: one item sent, one failed, two still pending,
batch started at time 0, observed at time 10. -/
def progressProbe : SenderState :=
  ⟨[⟨0, .sent, 0⟩, ⟨1, .failed, 3⟩, ⟨2, .pending, 0⟩, ⟨3, .pending, 0⟩],
   true, false, ⟨4, 1, 1, 0⟩, some 0⟩

/-- C8 counterexample: with `sent = 1`, `failed = 1`, two pending items and
10ms elapsed, the code's `estimatedTimeRemaining` is
`2 × (10 / 1) = 20` — `averageTime` divides the elapsed time by
`#progress.sent` alone — whereas the claimed formula
`pending × (elapsed / completed-so-far)` with `completed = sent + failed`
gives `2 × (10 / 2) = 10`. -/
theorem C8_etr_counterexample :
    (getProgress 10 progressProbe).estimatedTimeRemaining = 20 ∧
    ((getProgress 10 progressProbe).pending : ℚ) *
        (((getProgress 10 progressProbe).elapsedTime : ℚ) /
          (((getProgress 10 progressProbe).sent : ℚ) +
            ((getProgress 10 progressProbe).failed : ℚ))) = 10 ∧
    (20 : ℚ) ≠ 10 := by
  refine ⟨?_, ?_, by norm_num⟩
  · show ((2 : ℕ) : ℚ) * ((10 : ℚ) / ((1 : ℕ) : ℚ)) = 20
    norm_num
  · show ((2 : ℕ) : ℚ) * (((10 : ℕ) : ℚ) / (((1 : ℕ) : ℚ) + ((1 : ℕ) : ℚ))) = 10
    norm_num

/-- C8 (amended): `getProgress()` is a pure snapshot (it only reads the
batch state); for `total > 0` its percentage equals
`round((sent + failed) / total × 100)`, and its estimated time remaining
equals `(pending items) × (elapsed / sent)` when `sent > 0` — the divisor
is the count of successfully sent items, not of all completed items — and
`0` before the first success. -/
theorem C8_getProgress_formulas (now : ℕ) (s : SenderState)
    (htot : 0 < s.progress.total) :
    (getProgress now s).percentage
      = round ((((s.progress.sent : ℚ) + (s.progress.failed : ℚ)) /
          (s.progress.total : ℚ)) * 100) ∧
    (getProgress now s).estimatedTimeRemaining
      = (countStatus .pending s.queue : ℚ) *
          (if 0 < s.progress.sent then
            ((getProgress now s).elapsedTime : ℚ) / (s.progress.sent : ℚ)
          else 0) := by
  constructor
  · simp [getProgress, htot]
  · simp [getProgress]

/-- Witness for C8 (amended) at the mid-run snapshot `progressProbe`. -/
theorem C8_getProgress_formulas_witness :
    (getProgress 10 progressProbe).percentage
      = round ((((progressProbe.progress.sent : ℚ) +
          (progressProbe.progress.failed : ℚ)) /
          (progressProbe.progress.total : ℚ)) * 100) ∧
    (getProgress 10 progressProbe).estimatedTimeRemaining
      = (countStatus .pending progressProbe.queue : ℚ) *
          (if 0 < progressProbe.progress.sent then
            ((getProgress 10 progressProbe).elapsedTime : ℚ) /
              (progressProbe.progress.sent : ℚ)
          else 0) := by
  exact C8_getProgress_formulas 10 progressProbe (by norm_num [progressProbe])

end EmailSender

namespace SmartCache

/-- One `#cache` map entry of `SmartCache`: `{key, timestamp, ttl, ...}`
plus the stored value.  The claim's scenario excludes reclamation, so the
value is held directly (the `entry.value` branch); its payload is opaque,
modelled as a number. -/
structure CacheEntry where
  timestamp : ℕ
  ttl : ℕ
  value : ℕ
deriving DecidableEq

/-- The `SmartCache` instance state: the `#cache` `Map` (a list of
key-entry pairs in insertion order, keys unique), `maxSize`, the default
`ttl`, and the `#stats` counters. -/
structure Cache where
  entries : List (String × CacheEntry)
  maxSize : ℕ
  ttl : ℕ
  hits : ℕ
  misses : ℕ
  evictions : ℕ
deriving DecidableEq

/-- A freshly constructed cache with capacity `n` and the constructor's
default `ttl` of 3600000ms. -/
def emptyCache (n : ℕ) : Cache :=
  ⟨[], n, 3600000, 0, 0, 0⟩

/-- JS `Map.prototype.set`: overwrite in place if the key is present
(keeping its position), else append. -/
def mapSet (k : String) (e : CacheEntry) :
    List (String × CacheEntry) → List (String × CacheEntry)
  | [] => [(k, e)]
  | kv :: rest => if kv.1 = k then (k, e) :: rest else kv :: mapSet k e rest

/-- JS `Map.prototype.has`. -/
def mapHas (k : String) (l : List (String × CacheEntry)) : Bool :=
  l.any (fun kv => kv.1 == k)

/-- One step of `#evictOldest`'s scan: keep the current oldest unless this
entry's timestamp is strictly smaller (`entry.timestamp < oldestTime`);
the initial `oldest = null` is replaced by the first entry. -/
def oldestStep (acc : Option (String × ℕ)) (kv : String × CacheEntry) :
    Option (String × ℕ) :=
  match acc with
  | none => some (kv.1, kv.2.timestamp)
  | some kt => if kv.2.timestamp < kt.2 then some (kv.1, kv.2.timestamp) else some kt

/-- `#evictOldest`'s scan for the key with the smallest timestamp (first
insertion wins ties). -/
def oldestFold (l : List (String × CacheEntry)) : Option (String × ℕ) :=
  l.foldl oldestStep none

/-- `delete(key)`: if the key is present, remove it (invoking the
`onEvict` callback, opaque here) and bump the eviction counter; returns
whether anything was removed. -/
def deleteEntry (k : String) (c : Cache) : Cache × Bool :=
  if mapHas k c.entries then
    ({ c with entries := c.entries.filter (fun kv => !(kv.1 == k)),
              evictions := c.evictions + 1 }, true)
  else (c, false)

/-- `#evictOldest`: delete the key found by the scan — guarded by JS
truthiness, `if (oldest) { this.delete(oldest); }`: the deletion is
skipped not only when the scan found nothing (`oldest` still `null`, the
empty cache) but also when the oldest key is the falsy empty string. -/
def evictOldest (c : Cache) : Cache :=
  match oldestFold c.entries with
  | none => c
  | some kt => if kt.1 = "" then c else (deleteEntry kt.1 c).1

/-- `set(key, value, {ttl})`: if `#cache.size >= maxSize`, evict the
oldest entry first; then store
`{key, timestamp: Date.now(), ttl, value}` under the key. -/
def set (now : ℕ) (k : String) (v : ℕ) (entryTtl : ℕ) (c : Cache) : Cache :=
  if c.maxSize ≤ c.entries.length then
    { evictOldest c with
        entries := mapSet k ⟨now, entryTtl, v⟩ (evictOldest c).entries }
  else
    { c with entries := mapSet k ⟨now, entryTtl, v⟩ c.entries }

/-- A sequence of `set(key, value)` calls with the default `ttl`, each pair
giving the key and the value of `Date.now()` at that call. -/
def setAll (c : Cache) : List (String × ℕ) → Cache
  | [] => c
  | p :: rest => setAll (set p.2 p.1 0 c.ttl c) rest

/-- The entry `set` stores for a `(key, time)` pair under default ttl. -/
def toEntry (ttlv : ℕ) (p : String × ℕ) : String × CacheEntry :=
  (p.1, ⟨p.2, ttlv, 0⟩)

theorem mapSet_append (k : String) (e : CacheEntry) :
    ∀ l : List (String × CacheEntry), (∀ kv ∈ l, kv.1 ≠ k) →
      mapSet k e l = l ++ [(k, e)] := by
  intro l h
  induction l with
  | nil => rfl
  | cons kv rest ih =>
    simp only [mapSet]
    rw [if_neg (h kv (List.mem_cons_self kv rest))]
    rw [ih (fun kv1 h1 => h kv1 (List.mem_cons_of_mem kv h1))]
    rfl

theorem filter_ne_eq_self (k : String) (l : List (String × CacheEntry))
    (h : ∀ kv ∈ l, kv.1 ≠ k) :
    l.filter (fun kv => !(kv.1 == k)) = l := by
  apply List.filter_eq_self.mpr
  intro kv hkv
  simpa using h kv hkv

theorem oldestFold_acc_min (kt : String × ℕ) :
    ∀ l : List (String × CacheEntry), (∀ kv ∈ l, ¬ kv.2.timestamp < kt.2) →
      l.foldl oldestStep (some kt) = some kt := by
  intro l
  induction l with
  | nil => intro _; rfl
  | cons kv rest ih =>
    intro h
    have h1 : oldestStep (some kt) kv = some kt := by
      simp [oldestStep, h kv (List.mem_cons_self kv rest)]
    rw [List.foldl_cons, h1]
    exact ih (fun kv1 h1 => h kv1 (List.mem_cons_of_mem kv h1))

theorem oldestFold_cons_min (k0 : String) (e0 : CacheEntry)
    (tl : List (String × CacheEntry))
    (h : ∀ kv ∈ tl, ¬ kv.2.timestamp < e0.timestamp) :
    oldestFold ((k0, e0) :: tl) = some (k0, e0.timestamp) := by
  rw [oldestFold, List.foldl_cons]
  exact oldestFold_acc_min (k0, e0.timestamp) tl h

theorem setAll_append (l1 l2 : List (String × ℕ)) :
    ∀ c : Cache, setAll c (l1 ++ l2) = setAll (setAll c l1) l2 := by
  induction l1 with
  | nil => intro c; rfl
  | cons p rest ih => intro c; simpa [setAll] using ih _

theorem setAll_no_evict :
    ∀ (l : List (String × ℕ)) (c : Cache),
      c.entries.length + l.length ≤ c.maxSize →
      (∀ p ∈ l, ∀ kv ∈ c.entries, kv.1 ≠ p.1) →
      (l.map Prod.fst).Nodup →
      setAll c l = { c with entries := c.entries ++ l.map (toEntry c.ttl) } := by
  intro l
  induction l with
  | nil => intro c _ _ _; simp [setAll]
  | cons p rest ih =>
    intro c hlen hfresh hnodup
    have hlt : ¬ c.maxSize ≤ c.entries.length := by
      simp only [List.length_cons] at hlen
      omega
    have hset : set p.2 p.1 0 c.ttl c
        = { c with entries := c.entries ++ [toEntry c.ttl p] } := by
      simp only [set, if_neg hlt]
      rw [mapSet_append p.1 _ c.entries
        (fun kv hkv => hfresh p (List.mem_cons_self p rest) kv hkv)]
      rfl
    have hh : p.1 ∉ rest.map Prod.fst ∧ (rest.map Prod.fst).Nodup := by
      rw [List.map_cons, List.nodup_cons] at hnodup
      exact hnodup
    have hpnotin : p.1 ∉ rest.map Prod.fst := hh.1
    have hnodup1 : (rest.map Prod.fst).Nodup := hh.2
    have hfresh1 : ∀ q ∈ rest, ∀ kv ∈ c.entries ++ [toEntry c.ttl p], kv.1 ≠ q.1 := by
      intro q hq kv hkv
      rcases List.mem_append.mp hkv with h1 | h1
      · exact hfresh q (List.mem_cons_of_mem p hq) kv h1
      · have hkv2 : kv = toEntry c.ttl p := by simpa using h1
        subst hkv2
        intro hcontra
        apply hpnotin
        have : p.1 = q.1 := by simpa [toEntry] using hcontra
        rw [this]
        exact List.mem_map_of_mem Prod.fst hq
    have hlen1 : (c.entries ++ [toEntry c.ttl p]).length + rest.length ≤ c.maxSize := by
      simp only [List.length_append, List.length_singleton]
      simp only [List.length_cons] at hlen
      omega
    calc setAll c (p :: rest)
        = setAll (set p.2 p.1 0 c.ttl c) rest := rfl
      _ = setAll { c with entries := c.entries ++ [toEntry c.ttl p] } rest := by rw [hset]
      _ = { c with entries := c.entries ++ (p :: rest).map (toEntry c.ttl) } := by
          rw [ih { c with entries := c.entries ++ [toEntry c.ttl p] } hlen1 hfresh1 hnodup1]
          simp [List.append_assoc]

theorem mapHas_eq_false_of_not_mem (k : String) (l : List (String × CacheEntry))
    (h : ∀ kv ∈ l, kv.1 ≠ k) : mapHas k l = false := by
  apply List.any_eq_false.mpr
  intro kv hkv
  simpa using h kv hkv

theorem mapHas_eq_true_of_mem (k : String) (l : List (String × CacheEntry))
    (h : ∃ kv ∈ l, kv.1 = k) : mapHas k l = true := by
  apply List.any_eq_true.mpr
  obtain ⟨kv, hkv, he⟩ := h
  exact ⟨kv, hkv, by simpa using he⟩

/-- C7 counterexample: the claim fails on the code when the oldest key is
the empty string.  Filling a capacity-2 cache with the three distinct keys
`""`, `"b"`, `"c"` at times 1, 2, 3 leaves THREE resident entries with the
oldest key `""` still resident: at the third `set` the cache is at
capacity and `""` is the oldest key, but `#evictOldest`'s truthiness guard
`if (oldest)` treats the empty string like `null` and skips the deletion,
so the cache exceeds its capacity `N = 2` instead of holding exactly `N`
entries with the oldest one evicted. -/
theorem C7_empty_key_counterexample :
    (setAll (emptyCache 2) [("", 1), ("b", 2), ("c", 3)]).entries.length = 3 ∧
    mapHas "" (setAll (emptyCache 2) [("", 1), ("b", 2), ("c", 3)]).entries = true ∧
    ¬ (setAll (emptyCache 2) [("", 1), ("b", 2), ("c", 3)]).entries.length ≤ 2 := by
  refine ⟨rfl, rfl, ?_⟩
  intro hle
  have h3 : (setAll (emptyCache 2) [("", 1), ("b", 2), ("c", 3)]).entries.length = 3 := rfl
  omega

/-- C7 (amended): starting from an empty `SmartCache` of capacity `n ≥ 1`,
performing `set` on `n + 1` distinct keys at strictly increasing times (so
no two entries share a last-touched timestamp; no TTL expiry or
reclamation is modelled, per the claim), and provided the oldest key — the
first one inserted — is not the empty string (for the falsy key `""` the
`if (oldest)` truthiness guard in `#evictOldest` skips the eviction and
the final `set` leaves `n + 1` entries), the fill leaves exactly `n`
resident entries: the first key — the unique one whose timestamp was
oldest at the final insertion — is the single missing one, every later key
is resident, and no prefix of the fill ever makes the cache hold more than
`n` entries. -/
theorem C7_capacity_eviction (n : ℕ) (hn : 1 ≤ n)
    (p : String × ℕ) (rest : List (String × ℕ))
    (hp1 : p.1 ≠ "")
    (hlen : rest.length = n)
    (hkeys : ((p :: rest).map Prod.fst).Nodup)
    (htimes : ((p :: rest).map Prod.snd).Pairwise (· < ·)) :
    (setAll (emptyCache n) (p :: rest)).entries.length = n ∧
    mapHas p.1 (setAll (emptyCache n) (p :: rest)).entries = false ∧
    (∀ q ∈ rest, mapHas q.1 (setAll (emptyCache n) (p :: rest)).entries = true) ∧
    (∀ j : ℕ, (setAll (emptyCache n) ((p :: rest).take j)).entries.length ≤ n) := by
  -- split off the last insertion
  obtain ⟨rest1, q, rfl⟩ : ∃ rest1 q, rest = rest1 ++ [q] := by
    rcases List.eq_nil_or_concat rest with h | ⟨L, b, hb⟩
    · rw [h] at hlen; simp at hlen; omega
    · exact ⟨L, b, by simpa [List.concat_eq_append] using hb⟩
  have hlen1 : rest1.length + 1 = n := by simpa using hlen
  -- key facts from nodup
  have hpq : p.1 ∉ (rest1 ++ [q]).map Prod.fst ∧ ((rest1 ++ [q]).map Prod.fst).Nodup := by
    rw [List.map_cons, List.nodup_cons] at hkeys
    exact hkeys
  have hqfresh : q.1 ∉ rest1.map Prod.fst := by
    have h2 := hpq.2
    rw [List.map_append, List.nodup_append] at h2
    intro hc
    exact h2.2.2 hc (by simp)
  -- time facts
  have hpmin : ∀ r ∈ rest1 ++ [q], p.2 < r.2 := by
    have hpc := (List.pairwise_cons.mp htimes).1
    intro r hr
    exact hpc r.2 (List.mem_map_of_mem Prod.snd hr)
  -- the under-capacity fill of the first n keys
  have hsubl : (p :: rest1).Sublist (p :: (rest1 ++ [q])) :=
    (List.sublist_append_left rest1 [q]).cons₂ p
  have hkeys1 : ((p :: rest1).map Prod.fst).Nodup :=
    hkeys.sublist (hsubl.map Prod.fst)
  have hfill : setAll (emptyCache n) (p :: rest1)
      = ⟨(p :: rest1).map (toEntry 3600000), n, 3600000, 0, 0, 0⟩ := by
    have hfe := setAll_no_evict (p :: rest1) (emptyCache n)
      (by simp [emptyCache]; omega) (by simp [emptyCache]) hkeys1
    simpa [emptyCache] using hfe
  have htailkeys : ∀ kv ∈ rest1.map (toEntry 3600000), kv.1 ≠ p.1 := by
    intro kv hkv hc
    obtain ⟨r, hr, rfl⟩ := List.mem_map.mp hkv
    apply hpq.1
    have hr1 : r.1 = p.1 := by simpa [toEntry] using hc
    rw [← hr1]
    exact List.mem_map_of_mem Prod.fst (List.mem_append_left [q] hr)
  have holdest : oldestFold ((p :: rest1).map (toEntry 3600000)) = some (p.1, p.2) := by
    rw [List.map_cons]
    show oldestFold ((p.1, ⟨p.2, 3600000, 0⟩) :: rest1.map (toEntry 3600000))
        = some (p.1, p.2)
    exact oldestFold_cons_min p.1 ⟨p.2, 3600000, 0⟩ _ (by
      intro kv hkv
      obtain ⟨r, hr, rfl⟩ := List.mem_map.mp hkv
      have := hpmin r (List.mem_append_left [q] hr)
      simp only [toEntry]
      omega)
  have hhasp : mapHas p.1 ((p :: rest1).map (toEntry 3600000)) = true := by
    apply mapHas_eq_true_of_mem
    exact ⟨toEntry 3600000 p,
      List.mem_map_of_mem (toEntry 3600000) (List.mem_cons_self p rest1), rfl⟩
  have hevict : evictOldest ⟨(p :: rest1).map (toEntry 3600000), n, 3600000, 0, 0, 0⟩
      = ⟨rest1.map (toEntry 3600000), n, 3600000, 0, 0, 1⟩ := by
    show (match oldestFold ((p :: rest1).map (toEntry 3600000)) with
      | none => (⟨(p :: rest1).map (toEntry 3600000), n, 3600000, 0, 0, 0⟩ : Cache)
      | some kt =>
        if kt.1 = "" then (⟨(p :: rest1).map (toEntry 3600000), n, 3600000, 0, 0, 0⟩ : Cache)
        else (deleteEntry kt.1 ⟨(p :: rest1).map (toEntry 3600000), n, 3600000, 0, 0, 0⟩).1)
        = ⟨rest1.map (toEntry 3600000), n, 3600000, 0, 0, 1⟩
    rw [holdest]
    show (if p.1 = "" then (⟨(p :: rest1).map (toEntry 3600000), n, 3600000, 0, 0, 0⟩ : Cache)
      else (deleteEntry p.1 ⟨(p :: rest1).map (toEntry 3600000), n, 3600000, 0, 0, 0⟩).1)
        = ⟨rest1.map (toEntry 3600000), n, 3600000, 0, 0, 1⟩
    rw [if_neg hp1]
    show (deleteEntry p.1 ⟨(p :: rest1).map (toEntry 3600000), n, 3600000, 0, 0, 0⟩).1
        = ⟨rest1.map (toEntry 3600000), n, 3600000, 0, 0, 1⟩
    simp only [deleteEntry]
    rw [if_pos hhasp]
    show (⟨((p :: rest1).map (toEntry 3600000)).filter (fun kv => !(kv.1 == p.1)),
           n, 3600000, 0, 0, 0 + 1⟩ : Cache)
        = ⟨rest1.map (toEntry 3600000), n, 3600000, 0, 0, 1⟩
    rw [List.map_cons, List.filter_cons]
    rw [show (!((toEntry 3600000 p).1 == p.1)) = false by simp [toEntry]]
    simp only [Bool.false_eq_true, if_false]
    rw [filter_ne_eq_self p.1 _ htailkeys]
  have hfreshq : ∀ kv ∈ rest1.map (toEntry 3600000), kv.1 ≠ q.1 := by
    intro kv hkv hc
    obtain ⟨r, hr, rfl⟩ := List.mem_map.mp hkv
    apply hqfresh
    have hr1 : r.1 = q.1 := by simpa [toEntry] using hc
    rw [← hr1]
    exact List.mem_map_of_mem Prod.fst hr
  have hsetfinal :
      set q.2 q.1 0 3600000 ⟨(p :: rest1).map (toEntry 3600000), n, 3600000, 0, 0, 0⟩
        = ⟨rest1.map (toEntry 3600000) ++ [(q.1, ⟨q.2, 3600000, 0⟩)],
           n, 3600000, 0, 0, 1⟩ := by
    have hguard :
        (⟨(p :: rest1).map (toEntry 3600000), n, 3600000, 0, 0, 0⟩ : Cache).maxSize
          ≤ (⟨(p :: rest1).map (toEntry 3600000), n, 3600000, 0, 0, 0⟩ : Cache).entries.length := by
      simp
      omega
    rw [set, if_pos hguard, hevict]
    show (⟨mapSet q.1 ⟨q.2, 3600000, 0⟩ (rest1.map (toEntry 3600000)),
           n, 3600000, 0, 0, 1⟩ : Cache) = _
    rw [mapSet_append q.1 ⟨q.2, 3600000, 0⟩ (rest1.map (toEntry 3600000)) hfreshq]
  have hfinalentries : (setAll (emptyCache n) (p :: (rest1 ++ [q]))).entries
      = (rest1 ++ [q]).map (toEntry 3600000) := by
    have hsplit : setAll (emptyCache n) (p :: (rest1 ++ [q]))
        = set q.2 q.1 0 3600000 ⟨(p :: rest1).map (toEntry 3600000), n, 3600000, 0, 0, 0⟩ := by
      rw [show p :: (rest1 ++ [q]) = (p :: rest1) ++ [q] from rfl, setAll_append, hfill]
      rfl
    rw [hsplit, hsetfinal]
    simp [toEntry]
  refine ⟨?_, ?_, ?_, ?_⟩
  · rw [hfinalentries]
    simpa using hlen1
  · rw [hfinalentries]
    apply mapHas_eq_false_of_not_mem
    intro kv hkv hc
    obtain ⟨r, hr, rfl⟩ := List.mem_map.mp hkv
    apply hpq.1
    have hr1 : r.1 = p.1 := by simpa [toEntry] using hc
    rw [← hr1]
    exact List.mem_map_of_mem Prod.fst hr
  · intro q1 hq1
    rw [hfinalentries]
    apply mapHas_eq_true_of_mem
    exact ⟨toEntry 3600000 q1, List.mem_map_of_mem (toEntry 3600000) hq1, rfl⟩
  · intro j
    rcases Nat.lt_or_ge j (n + 1) with hj | hj
    · -- a prefix of the first n inserts: still filling, no eviction
      cases j with
      | zero => simp [setAll, emptyCache]
      | succ i =>
        have hi : i ≤ rest1.length := by omega
        have htake : (p :: (rest1 ++ [q])).take (i + 1) = p :: rest1.take i := by
          rw [List.take_succ_cons, List.take_append_of_le_length hi]
        rw [htake]
        have hsub2 : (p :: rest1.take i).Sublist (p :: (rest1 ++ [q])) :=
          ((rest1.take_sublist i).trans (List.sublist_append_left rest1 [q])).cons₂ p
        have hkeys2 : ((p :: rest1.take i).map Prod.fst).Nodup :=
          hkeys.sublist (hsub2.map Prod.fst)
        have hfe2 := setAll_no_evict (p :: rest1.take i) (emptyCache n)
          (by simp [emptyCache, List.length_take]; omega)
          (by simp [emptyCache]) hkeys2
        rw [hfe2]
        simp [emptyCache, List.length_take]
        omega
    · -- the whole list: computed above, exactly n entries
      have htake : (p :: (rest1 ++ [q])).take j = p :: (rest1 ++ [q]) := by
        apply List.take_of_length_le
        simp
        omega
      rw [htake, hfinalentries]
      simp
      omega

/-- Witness for C7 (amended) with capacity 2 and the nonempty keys
`"a", "b", "c"` set at times 1, 2, 3: `"a"` is evicted, `"b"` and `"c"`
survive. -/
theorem C7_capacity_eviction_witness :
    (setAll (emptyCache 2) [("a", 1), ("b", 2), ("c", 3)]).entries.length = 2 ∧
    mapHas "a" (setAll (emptyCache 2) [("a", 1), ("b", 2), ("c", 3)]).entries = false ∧
    mapHas "b" (setAll (emptyCache 2) [("a", 1), ("b", 2), ("c", 3)]).entries = true := by
  have h := C7_capacity_eviction 2 (by norm_num) ("a", 1) [("b", 2), ("c", 3)]
    (by decide) (by simp) (by simp) (by simp)
  exact ⟨h.1, h.2.1, h.2.2.1 ("b", 2) (by simp)⟩

end SmartCache

end MailStream
